import Mathlib

/-!
Shared-memory system calls of `kernel/sysfile.c`.

A shallow embedding of the descriptor allocator `fdalloc` and of the shared-memory
registry (`sys_shm_open`, `sys_shm_trunc`, `sys_shm_map`, `close_shm_o`, `shmcpy`) of
`kernel/sysfile.c`, followed by theorems about them.

Conventions of the embedding.

* The array `shared_memory[NOSYSSHM]` is kept as the bytes it occupies, because the code
  stores past `name[100]` and past `addresses[SHMMAXPAGES]`: on the 32-bit x86 target an
  `int` is four bytes, least significant first, and `struct shm_o` has no padding, so `name`
  is at offset 0, `size` at 100, `addresses` at 104 and `process_counter` at
  `104 + 4 * SHMMAXPAGES`, and one element follows the other.  A store past the end of the
  whole array is dropped and a read there yields zero bytes: what lies behind the array is
  not part of `sysfile.c`.
* The per-process arrays `ofile[NOFILE]` and `oshm[NOPROCESSSHM]` are lists; the array bound
  is the length of the list, so every statement holds for every value of these constants of
  `param.h`.  `SHMMAXPAGES` and `NOSYSSHM` are carried by the table.
* `int` values are `Int`; where C arithmetic can leave the 32-bit range the result is
  reduced with `toI32`.  Pointers and `uint` values are `Nat` below `2 ^ 32`.
* The theorems state explicitly when a handle is within `0 .. NOSYSSHM - 1`; a store through
  a negative index is dropped and a read there yields the default element.
* The page table is a map from page-aligned virtual address to page-table entry, `0` standing
  for an entry that is not present.
-/

namespace Sysfile

/-! ## Constants of the headers -/

/-- Page size of `mmu.h`. -/
def PGSIZE : Nat := 4096

/-- First kernel virtual address, `memlayout.h`. -/
def KERNBASE : Nat := 0x80000000

/-- Present bit of a page-table entry, `mmu.h`. -/
def PTE_P : Nat := 1

/-- Writeable bit of a page-table entry, `mmu.h`. -/
def PTE_W : Nat := 2

/-- User bit of a page-table entry, `mmu.h`. -/
def PTE_U : Nat := 4

/-- Open mode `O_RDONLY` of `fcntl.h`. -/
def O_RDONLY : Nat := 0

/-- Open mode `O_WRONLY` of `fcntl.h`. -/
def O_WRONLY : Nat := 1

/-- Open mode `O_RDWR` of `fcntl.h`. -/
def O_RDWR : Nat := 2

/-- Open mode `O_CREATE` of `fcntl.h`. -/
def O_CREATE : Nat := 0x200

/-! ## Machine words -/

/-- The 32-bit pattern of an `int` (the cast `(uint) x`). -/
def toU32 (x : Int) : Nat := (x % 2 ^ 32).toNat

/-- The `int` with a given 32-bit pattern (the cast `(int) x`, and the wrap of `int`
arithmetic). -/
def toI32 (x : Int) : Int := (x + 2 ^ 31) % 2 ^ 32 - 2 ^ 31

/-- The macro `PGROUNDDOWN(a)` of `mmu.h`, `a & ~(PGSIZE-1)`, on a 32-bit pattern. -/
def PGROUNDDOWN (a : Nat) : Nat := a - a % PGSIZE

/-- The macro `V2P(a)` of `memlayout.h`, `((uint) a) - KERNBASE`. -/
def V2P (a : Nat) : Nat := (a + 2 ^ 32 - KERNBASE) % 2 ^ 32

/-- The macro `P2V(a)` of `memlayout.h`, `((char *) a) + KERNBASE`. -/
def P2V (a : Nat) : Nat := (a + KERNBASE) % 2 ^ 32

/-! ## Bytes in memory -/

/-- The `int` read from the four bytes at offset `off`, least significant byte first. -/
def read32 (m : List Nat) (off : Nat) : Int :=
  toI32 ((m.getD off 0 + 256 * m.getD (off + 1) 0 + 65536 * m.getD (off + 2) 0
    + 16777216 * m.getD (off + 3) 0 : Nat) : Int)

/-- The memory after the `int` `v` is stored in the four bytes at offset `off`. -/
def write32 (m : List Nat) (off : Nat) (v : Int) : List Nat :=
  (((m.set off (toU32 v % 256)).set (off + 1) (toU32 v / 256 % 256)).set (off + 2)
    (toU32 v / 65536 % 256)).set (off + 3) (toU32 v / 16777216 % 256)

/-- The C string that starts at offset `off`: the bytes before the first zero byte. -/
def cstr (m : List Nat) (off : Nat) : List Nat := (m.drop off).takeWhile (fun b => b != 0)

/-- The memory after the bytes `bs` are stored from offset `off` on. -/
def write_bytes (m : List Nat) (off : Nat) : List Nat → List Nat
  | [] => m
  | b :: bs => write_bytes (m.set off b) (off + 1) bs

/-! ## Data model -/

/-- The array `shared_memory[NOSYSSHM]` as it lies in memory: the bound `SHMMAXPAGES` of
`param.h`, which fixes the size of one `struct shm_o`, and the bytes of the array. -/
structure shm_table where
  SHMMAXPAGES : Nat
  bytes : List Nat

/-- The size of one element, `sizeof(struct shm_o)`: `name[100]`, `size`,
`addresses[SHMMAXPAGES]` and `process_counter`. -/
def shm_table.stride (t : shm_table) : Nat := 100 + 4 + 4 * t.SHMMAXPAGES + 4

/-- The number of elements of the array, `NOSYSSHM`. -/
def shm_table.length (t : shm_table) : Nat := t.bytes.length / t.stride

/-- The offset of `shared_memory[i]` in the array. -/
def shm_table.base (t : shm_table) (i : Int) : Nat := i.toNat * t.stride

/-- The fields of a `struct shm_o` of `sysfile.c` as the code reads them: `name` as a C string,
and `addresses[j]` for any `j`, also past the bound of the array. -/
structure shm_o where
  name : List Nat
  size : Int
  addresses : Nat → Int
  process_counter : Int

instance : Inhabited shm_o := ⟨⟨[], 0, fun _ => 0, 0⟩⟩

/-- The element `shared_memory[i]` as the code reads it. -/
def shm_table.slot (t : shm_table) (i : Int) : shm_o :=
  if 0 ≤ i then
    ⟨cstr t.bytes (t.base i), read32 t.bytes (t.base i + 100),
      fun j => read32 t.bytes (t.base i + 104 + 4 * j),
      read32 t.bytes (t.base i + 104 + 4 * t.SHMMAXPAGES)⟩
  else default

/-- The table after `strncpy(shared_memory[i].name, name, strlen(name)+1)`: the bytes of
`name` and the terminating zero byte are stored from the start of the element on, however
long `name` is. -/
def shm_table.set_name (t : shm_table) (i : Int) (name : List Nat) : shm_table :=
  if 0 ≤ i then { t with bytes := write_bytes t.bytes (t.base i) (name ++ [0]) } else t

/-- The table after `shared_memory[i].size = v`. -/
def shm_table.set_size (t : shm_table) (i : Int) (v : Int) : shm_table :=
  if 0 ≤ i then { t with bytes := write32 t.bytes (t.base i + 100) v } else t

/-- The table after `shared_memory[i].addresses[j] = v`, for any `j`. -/
def shm_table.set_address (t : shm_table) (i : Int) (j : Nat) (v : Int) : shm_table :=
  if 0 ≤ i then { t with bytes := write32 t.bytes (t.base i + 104 + 4 * j) v } else t

/-- The table after `shared_memory[i].process_counter = v`. -/
def shm_table.set_process_counter (t : shm_table) (i : Int) (v : Int) : shm_table :=
  if 0 ≤ i then
    { t with bytes := write32 t.bytes (t.base i + 104 + 4 * t.SHMMAXPAGES) v }
  else t

/-- One element of `proc->oshm[]`: the slot attached to, where it is mapped, and the flags. -/
structure oshm_t where
  index : Int
  va : Nat
  flags : Int
deriving DecidableEq, Repr

instance : Inhabited oshm_t := ⟨⟨-1, 0, 0⟩⟩

/-- The fields of `struct proc` that `sysfile.c` uses here. -/
structure proc where
  ofile : List Nat
  oshm : List oshm_t
  pgdir : Nat → Nat

instance : Inhabited proc := ⟨⟨[], [], fun _ => 0⟩⟩

/-- The free list of the physical page allocator, as kernel virtual addresses. -/
structure kmem_t where
  freelist : List Nat
deriving DecidableEq, Repr

/-- Modelled from the spec: `kalloc` of `kalloc.c`, which is not among the sources.  It takes
the first page off the free list and returns `0` when the list is empty. -/
def kalloc (km : kmem_t) : Nat × kmem_t :=
  match km.freelist with
  | [] => (0, km)
  | r :: rest => (r, ⟨rest⟩)

/-- Modelled from the spec: `kfree` of `kalloc.c`, which is not among the sources.  It puts the
page back at the head of the free list. -/
def kfree (km : kmem_t) (v : Nat) : kmem_t := ⟨v :: km.freelist⟩

/-- Modelled from the spec: `mappages` of `vm.c`, which is not among the sources, for a range
of one page: the entry of the page that holds `va` becomes `pa | perm | PTE_P`. -/
def mappages (pgdir : Nat → Nat) (va : Nat) (pa : Nat) (perm : Nat) : Nat → Nat :=
  Function.update pgdir (PGROUNDDOWN va) (pa ||| perm ||| PTE_P)

/-- Modelled from the spec: the store `*walkpgdir(pgdir, va, 0) = 0`, with `walkpgdir` of `vm.c`
not among the sources: the entry of the page that holds `va` becomes `0`. -/
def clearpte (pgdir : Nat → Nat) (va : Nat) : Nat → Nat :=
  Function.update pgdir (PGROUNDDOWN va) 0

/-! ## Array access -/

/-- The element `a[i]` of a per-process array for an `int` index. -/
def rd {α : Type} [Inhabited α] (a : List α) (i : Int) : α :=
  if 0 ≤ i then a.getD i.toNat default else default

/-- The per-process array after `a[i] = f (a[i])` for an `int` index. -/
def wr {α : Type} [Inhabited α] (a : List α) (i : Int) (f : α → α) : List α :=
  if 0 ≤ i ∧ i.toNat < a.length then a.set i.toNat (f (rd a i)) else a

/-- The loop `for (i = start; i < start + n; i++) if (c(i)) { r = i; break; }` with `r`
initially `-1`; `n` is the number of iterations left. -/
def first_from (c : Nat → Bool) : Nat → Nat → Int
  | 0, _ => -1
  | n + 1, i => if c i then (i : Int) else first_from c n (i + 1)

/-! ## `fdalloc` -/

/-- The loop of `fdalloc`, with `n` iterations left and the loop variable at `fd`. -/
def fdalloc_loop (ofile : List Nat) (f : Nat) : Nat → Nat → Int × List Nat
  | 0, _ => (-1, ofile)
  | n + 1, fd =>
    if ofile.getD fd 0 = 0 then ((fd : Int), ofile.set fd f)
    else fdalloc_loop ofile f n (fd + 1)

/-- The function `fdalloc(f)`: the descriptor returned and the process afterwards. -/
def fdalloc (curproc : proc) (f : Nat) : Int × proc :=
  let r := fdalloc_loop curproc.ofile f curproc.ofile.length 0
  (r.1, { curproc with ofile := r.2 })

/-! ## The shared-memory registry -/

/-- The values of `i` in a loop `for (int i = 0; i < size/PGSIZE; i++)`. -/
def page_indices (size : Int) : List Nat := List.range (Int.tdiv size PGSIZE).toNat

/-- The function `sys_shm_open` with its string argument `name`, run by process `p` on the
table `shared_memory`: the value returned, the table and the process afterwards. -/
def sys_shm_open (shared_memory : shm_table) (p : proc) (name : List Nat) :
    Int × shm_table × proc :=
  let shm_od :=
    first_from (fun i => (shared_memory.slot (i : Int)).name == name) shared_memory.length 0
  let process_index :=
    first_from (fun i => (rd p.oshm (i : Int)).index == -1) p.oshm.length 0
  if process_index = -1 then (-1, shared_memory, p)
  else if shm_od ≠ -1 then
    (shm_od,
      shared_memory.set_process_counter shm_od
        ((shared_memory.slot shm_od).process_counter + 1),
      { p with oshm := wr p.oshm process_index (fun e => { e with index := shm_od }) })
  else
    let shm_od :=
      first_from (fun i => (shared_memory.slot (i : Int)).process_counter == 0)
        shared_memory.length 0
    if shm_od ≠ -1 then
      let named := shared_memory.set_name shm_od name
      let sized := named.set_size shm_od 0
      (shm_od,
        sized.set_process_counter shm_od ((sized.slot shm_od).process_counter + 1),
        { p with oshm := wr p.oshm process_index (fun e => { e with index := shm_od }) })
    else (-1, shared_memory, p)

/-- The size that `sys_shm_trunc` stores and returns for its argument `size`:
`if (size%PGSIZE != 0) size = size/PGSIZE*PGSIZE + PGSIZE;`. -/
def sys_shm_trunc_size (size : Int) : Int :=
  if Int.tmod size PGSIZE ≠ 0 then toI32 (Int.tdiv size PGSIZE * PGSIZE + PGSIZE) else size

/-- One turn of the allocation loop of `sys_shm_trunc`:
`va = kalloc(); shared_memory[shm_od].addresses[i] = V2P(va);`. -/
def sys_shm_trunc_page (shm_od : Int) (st : kmem_t × shm_table) (i : Nat) :
    kmem_t × shm_table :=
  ((kalloc st.1).2, st.2.set_address shm_od i (toI32 (V2P (kalloc st.1).1)))

/-- The function `sys_shm_trunc` with its arguments `shm_od` and `size`: the value returned,
the table and the page allocator afterwards. -/
def sys_shm_trunc (shared_memory : shm_table) (km : kmem_t) (shm_od : Int) (size : Int) :
    Int × shm_table × kmem_t :=
  if (shared_memory.slot shm_od).size ≠ 0 then (-1, shared_memory, km)
  else
    let size := sys_shm_trunc_size size
    let r := (page_indices size).foldl (sys_shm_trunc_page shm_od) (km, shared_memory)
    (size, r.2.set_size shm_od size, r.1)

/-- The permission word of a mapping: the statement `if (flags&O_RDWR != 0) flags = PTE_W;`
followed by the argument `PTE_U|flags` of `mappages`.  In C `!=` binds tighter than `&`, so
the condition is `flags & (O_RDWR != 0)`. -/
def shm_perm (flags : Int) : Nat :=
  let flags : Int :=
    if toU32 flags &&& (if O_RDWR ≠ 0 then 1 else 0) ≠ 0 then (PTE_W : Int) else flags
  PTE_U ||| toU32 flags

/-- The loop of `sys_shm_map` that lowers `begin_address` from `KERNBASE-PGSIZE` to the
lowest `va` among the entries of the process that are in use and not for `shm_od`. -/
def sys_shm_map_begin (oshm : List oshm_t) (shm_od : Int) : Nat :=
  oshm.foldl
    (fun begin_address e =>
      if e.index = shm_od then begin_address
      else if e.index ≠ -1 ∧ begin_address > e.va then e.va
      else begin_address)
    (toU32 (toI32 ((KERNBASE : Int) - PGSIZE)))

/-- The address that `sys_shm_map` chooses:
`PGROUNDDOWN((int)begin_address - shared_memory[shm_od].size)`. -/
def sys_shm_map_va (oshm : List oshm_t) (shm_od : Int) (size : Int) : Nat :=
  PGROUNDDOWN (toU32 (toI32 (toI32 (sys_shm_map_begin oshm shm_od) - size)))

/-- The function `sys_shm_map` with its arguments `shm_od` and `flags`: the value returned,
the process afterwards, and the address stored through the pointer argument. -/
def sys_shm_map (shared_memory : shm_table) (p : proc) (shm_od : Int) (flags : Int) :
    Int × proc × Option Nat :=
  if (shared_memory.slot shm_od).size = 0 then (-1, p, none)
  else
    let process_index :=
      first_from (fun i => (rd p.oshm (i : Int)).index == shm_od) p.oshm.length 0
    if process_index ≠ -1 ∧ (rd p.oshm process_index).va ≠ 0 then (-1, p, none)
    else if process_index = -1 then (-1, p, none)
    else
      let o := shared_memory.slot shm_od
      let begin_address := sys_shm_map_va p.oshm shm_od o.size
      let oshm :=
        wr p.oshm process_index (fun e => { e with va := begin_address, flags := flags })
      let pgdir :=
        (page_indices o.size).foldl
          (fun pg i =>
            mappages pg ((begin_address + i * PGSIZE) % 2 ^ 32) (toU32 (o.addresses i))
              (shm_perm flags))
          p.pgdir
      (0, { p with oshm := oshm, pgdir := pgdir }, some begin_address)

/-- The function `close_shm_o(shm_od)` run by process `p`: the value returned, the table,
the process and the page allocator afterwards. -/
def close_shm_o (shared_memory : shm_table) (p : proc) (km : kmem_t) (shm_od : Int) :
    Int × shm_table × proc × kmem_t :=
  if (shared_memory.slot shm_od).process_counter = 0 then (-1, shared_memory, p, km)
  else
    let i := first_from (fun i => (rd p.oshm (i : Int)).index == shm_od) p.oshm.length 0
    if i = -1 then (-1, shared_memory, p, km)
    else
      let va := (rd p.oshm i).va
      let oshm := wr p.oshm i (fun _ => ⟨-1, 0, -1⟩)
      let pgdir :=
        (page_indices (shared_memory.slot shm_od).size).foldl
          (fun pg j => clearpte pg ((va + j * PGSIZE) % 2 ^ 32)) p.pgdir
      let counted :=
        shared_memory.set_process_counter shm_od
          ((shared_memory.slot shm_od).process_counter - 1)
      if (counted.slot shm_od).process_counter = 0 then
        let km :=
          if (counted.slot shm_od).size ≠ 0 then
            (page_indices (counted.slot shm_od).size).foldl
              (fun km j => kfree km (P2V (toU32 ((counted.slot shm_od).addresses j)))) km
          else km
        (0, counted.set_size shm_od 0, { p with oshm := oshm, pgdir := pgdir }, km)
      else (0, counted, { p with oshm := oshm, pgdir := pgdir }, km)

/-- One turn of the outer loop of `shmcpy`, for index `i` and the entry `e = p->oshm[i]` of
the parent.  The local `va` is declared `int*`, so `va+j*PGSIZE` is the byte address
`va + sizeof(int) * (j*PGSIZE)` with `sizeof(int) = 4`. -/
def shmcpy_entry (e : oshm_t) (i : Nat) (st : shm_table × proc) : shm_table × proc :=
  if e.index ≠ -1 then
    let oshm := wr st.2.oshm i (fun _ => e)
    let ne := rd oshm (i : Int)
    let shared_memory :=
      st.1.set_process_counter ne.index ((st.1.slot ne.index).process_counter + 1)
    let o := shared_memory.slot ne.index
    let pgdir :=
      (page_indices o.size).foldl
        (fun pg j =>
          mappages pg ((ne.va + 4 * (j * PGSIZE)) % 2 ^ 32) (toU32 (o.addresses j))
            (shm_perm ne.flags))
        st.2.pgdir
    (shared_memory, { st.2 with oshm := oshm, pgdir := pgdir })
  else st

/-- The function `shmcpy(p, np)`: the table and the child `np` afterwards. -/
def shmcpy (shared_memory : shm_table) (p np : proc) : shm_table × proc :=
  (List.range p.oshm.length).foldl
    (fun st (i : Nat) => shmcpy_entry (rd p.oshm (i : Int)) i st)
    (shared_memory, np)

/-! ## The kernel as a whole -/

/-- The global state that the registry works on: the table `shared_memory[]`, the processes
and the page allocator. -/
structure kernel where
  shared_memory : shm_table
  procs : List proc
  kmem : kmem_t

/-- Process `pid` calls `sys_shm_open(name)`. -/
def kernel.shm_open (k : kernel) (pid : Nat) (name : List Nat) : kernel :=
  let r := sys_shm_open k.shared_memory (k.procs.getD pid default) name
  ⟨r.2.1, k.procs.set pid r.2.2, k.kmem⟩

/-- Some process calls `sys_shm_trunc(shm_od, size)`. -/
def kernel.shm_trunc (k : kernel) (shm_od : Int) (size : Int) : kernel :=
  let r := sys_shm_trunc k.shared_memory k.kmem shm_od size
  ⟨r.2.1, k.procs, r.2.2⟩

/-- Process `pid` calls `sys_shm_map(shm_od, &va, flags)`. -/
def kernel.shm_map (k : kernel) (pid : Nat) (shm_od : Int) (flags : Int) : kernel :=
  let r := sys_shm_map k.shared_memory (k.procs.getD pid default) shm_od flags
  ⟨k.shared_memory, k.procs.set pid r.2.1, k.kmem⟩

/-- Process `pid` calls `close_shm_o(shm_od)`. -/
def kernel.shm_close (k : kernel) (pid : Nat) (shm_od : Int) : kernel :=
  let r := close_shm_o k.shared_memory (k.procs.getD pid default) k.kmem shm_od
  ⟨r.2.1, k.procs.set pid r.2.2.1, r.2.2.2⟩

/-- The call `shmcpy(p, np)` for the processes `parent` and `child`. -/
def kernel.shm_fork (k : kernel) (parent child : Nat) : kernel :=
  let r := shmcpy k.shared_memory (k.procs.getD parent default) (k.procs.getD child default)
  ⟨r.1, k.procs.set child r.2, k.kmem⟩

/-- The attachment table of a process is empty: every entry has `index == -1`. -/
def oshm_empty (p : proc) : Prop := ∀ e ∈ p.oshm, e.index = -1

/-- The initial state: every `process_counter` is `0`, and every process has `n` entries in
its attachment table, all with `index == -1`. -/
def kernel.initial (n : Nat) (k : kernel) : Prop :=
  (∀ s : Nat, s < k.shared_memory.length →
      (k.shared_memory.slot (s : Int)).process_counter = 0) ∧
    ∀ p ∈ k.procs, p.oshm.length = n ∧ oshm_empty p

/-- The states reached from an initial state by calls of `sys_shm_open`, `sys_shm_trunc`,
`sys_shm_map` and `close_shm_o` with handles within the table, and by `shmcpy` into a child
whose attachment table is empty.  `n` is `NOPROCESSSHM`. -/
inductive Reachable (n : Nat) : kernel → Prop
  | init (k : kernel) : kernel.initial n k → Reachable n k
  | shm_open (k : kernel) (pid : Nat) (name : List Nat) :
      Reachable n k → pid < k.procs.length → Reachable n (k.shm_open pid name)
  | shm_trunc (k : kernel) (shm_od size : Int) :
      Reachable n k → 0 ≤ shm_od → shm_od < k.shared_memory.length →
      Reachable n (k.shm_trunc shm_od size)
  | shm_map (k : kernel) (pid : Nat) (shm_od flags : Int) :
      Reachable n k → pid < k.procs.length → 0 ≤ shm_od → shm_od < k.shared_memory.length →
      Reachable n (k.shm_map pid shm_od flags)
  | shm_close (k : kernel) (pid : Nat) (shm_od : Int) :
      Reachable n k → pid < k.procs.length → 0 ≤ shm_od → shm_od < k.shared_memory.length →
      Reachable n (k.shm_close pid shm_od)
  | shm_fork (k : kernel) (parent child : Nat) :
      Reachable n k → parent < k.procs.length → child < k.procs.length →
      oshm_empty (k.procs.getD child default) → Reachable n (k.shm_fork parent child)

/-- The number of attachment entries, over all processes, that point to slot `s`. -/
def attachments (procs : List proc) (s : Nat) : Nat :=
  (procs.map (fun p => p.oshm.countP (fun e => e.index == (s : Int)))).sum

/-! ## Concrete states -/

/-- A freshly booted kernel with `SHMMAXPAGES = 2`: two slots of `116` bytes each, all zero,
two processes of two attachment entries each, and three free pages.  Each process has its
first user page mapped at virtual address `0`. -/
def boot : kernel :=
  ⟨⟨2, List.replicate 232 0⟩,
    [⟨[], [default, default], fun a => if a = 0 then 0x155007 else 0⟩,
      ⟨[], [default, default], fun a => if a = 0 then 0x166007 else 0⟩],
    ⟨[0x80400000, 0x80401000, 0x80402000]⟩⟩

/-- The name `"X"`. -/
def name_X : List Nat := [88]

/-- The name `"Y"`. -/
def name_Y : List Nat := [89]

/-- A name of 101 bytes, one more than `name[100]` holds with its terminator. -/
def name_101 : List Nat := List.replicate 101 65

/-- Process 0 has opened `"X"` and `"Y"`, and `"X"` has been given two pages. -/
def two_opened : kernel := ((boot.shm_open 0 name_X).shm_open 0 name_Y).shm_trunc 0 8192

/-- Process 0 has opened `"X"`, which has been given two pages. -/
def one_opened : kernel := (boot.shm_open 0 name_X).shm_trunc 0 8192

/-- Process 0 has opened `"X"`, given it two pages and mapped it with `O_RDWR`. -/
def one_mapped : kernel := one_opened.shm_map 0 0 O_RDWR

/-- Processes 0 and 1 have both opened `"X"`, and it has been given one page; neither has
mapped it. -/
def shared_unmapped : kernel := ((boot.shm_open 0 name_X).shm_open 1 name_X).shm_trunc 0 4096

/-- Process 0 has opened `"X"`, which has been given one page. -/
def one_page : kernel := (boot.shm_open 0 name_X).shm_trunc 0 4096

/-- Process 0 has opened `"X"` and called `sys_shm_trunc(0, 3 * PGSIZE)`, one page more than
`addresses[2]` holds. -/
def overrun : kernel := (boot.shm_open 0 name_X).shm_trunc 0 12288

/-! ## `fdalloc` returns the lowest free descriptor -/

theorem fdalloc_loop_none (ofile : List Nat) (f : Nat) (n fd : Nat)
    (h : ∀ k, fd ≤ k → k < fd + n → ofile.getD k 0 ≠ 0) :
    fdalloc_loop ofile f n fd = (-1, ofile) := by
  induction n generalizing fd with
  | zero => rfl
  | succ n ih =>
    have h0 : ofile.getD fd 0 ≠ 0 := h fd (Nat.le_refl _) (by omega)
    simp only [fdalloc_loop, h0, if_false]
    exact ih (fd + 1) (fun k hk hk2 => h k (by omega) (by omega))

theorem fdalloc_loop_some (ofile : List Nat) (f : Nat) (n fd j : Nat)
    (hj : fd ≤ j) (hjn : j < fd + n) (hz : ofile.getD j 0 = 0)
    (hlow : ∀ k, fd ≤ k → k < j → ofile.getD k 0 ≠ 0) :
    fdalloc_loop ofile f n fd = ((j : Int), ofile.set j f) := by
  induction n generalizing fd with
  | zero => omega
  | succ n ih =>
    by_cases hfd : fd = j
    · subst hfd
      simp only [fdalloc_loop, hz, if_true]
    · have h0 : ofile.getD fd 0 ≠ 0 := hlow fd (Nat.le_refl _) (by omega)
      simp only [fdalloc_loop, h0, if_false]
      exact ih (fd + 1) (by omega) (by omega) (fun k hk hk2 => hlow k (by omega) hk2)

/-- Claim C9: `fdalloc(f)` on an open-file array returns the least index whose slot is
empty, stores `f` there and leaves every other slot as it was; when no slot is empty it
returns `-1` and leaves the array as it was. -/
theorem fdalloc_lowest_free (curproc : proc) (f : Nat) :
    ((∃ k, k < curproc.ofile.length ∧ curproc.ofile.getD k 0 = 0) →
      ∃ fd, fd < curproc.ofile.length ∧ curproc.ofile.getD fd 0 = 0 ∧
        (∀ k, k < fd → curproc.ofile.getD k 0 ≠ 0) ∧
        (fdalloc curproc f).1 = (fd : Int) ∧
        (fdalloc curproc f).2.ofile.length = curproc.ofile.length ∧
        (fdalloc curproc f).2.ofile.getD fd 0 = f ∧
        (∀ k, k ≠ fd → (fdalloc curproc f).2.ofile.getD k 0 = curproc.ofile.getD k 0) ∧
        (fdalloc curproc f).2.oshm = curproc.oshm ∧
        (fdalloc curproc f).2.pgdir = curproc.pgdir) ∧
    ((∀ k, k < curproc.ofile.length → curproc.ofile.getD k 0 ≠ 0) →
      (fdalloc curproc f).1 = -1 ∧ (fdalloc curproc f).2.ofile = curproc.ofile ∧
        (fdalloc curproc f).2.oshm = curproc.oshm ∧
        (fdalloc curproc f).2.pgdir = curproc.pgdir) := by
  constructor
  · intro hex
    classical
    have hex2 : ∃ k, k < curproc.ofile.length ∧ curproc.ofile.getD k 0 = 0 := hex
    let fd := Nat.find hex2
    have hfd : fd < curproc.ofile.length ∧ curproc.ofile.getD fd 0 = 0 := Nat.find_spec hex2
    have hmin : ∀ k, k < fd → curproc.ofile.getD k 0 ≠ 0 := by
      intro k hk hz
      exact Nat.find_min hex2 hk ⟨by omega, hz⟩
    have hrun : fdalloc_loop curproc.ofile f curproc.ofile.length 0
        = ((fd : Int), curproc.ofile.set fd f) :=
      fdalloc_loop_some curproc.ofile f curproc.ofile.length 0 fd (Nat.zero_le _)
        (by omega) hfd.2 (fun k _ hk => hmin k hk)
    refine ⟨fd, hfd.1, hfd.2, hmin, ?_, ?_, ?_, ?_, rfl, rfl⟩
    · simp [fdalloc, hrun]
    · simp [fdalloc, hrun]
    · simp [fdalloc, hrun, List.getD_eq_getElem?_getD, hfd.1]
    · intro k hk
      simp [fdalloc, hrun, List.getD_eq_getElem?_getD, List.getElem?_set, Ne.symm hk]
  · intro hall
    have hrun : fdalloc_loop curproc.ofile f curproc.ofile.length 0 = (-1, curproc.ofile) :=
      fdalloc_loop_none curproc.ofile f curproc.ofile.length 0
        (fun k _ hk => hall k (by omega))
    simp [fdalloc, hrun]

/-- Claim C9 at a concrete table: descriptors 0 and 1 are taken and 2 is free, so a free
descriptor is returned and holds the file afterwards. -/
theorem fdalloc_lowest_free_witness :
    ∃ fd : Nat, (fdalloc ⟨[7, 8, 0, 9, 0], [], fun _ => 0⟩ 5).1 = (fd : Int) ∧
      (fdalloc ⟨[7, 8, 0, 9, 0], [], fun _ => 0⟩ 5).2.ofile.getD fd 0 = 5 := by
  obtain ⟨fd, _, _, _, h1, _, h2, _⟩ :=
    (fdalloc_lowest_free ⟨[7, 8, 0, 9, 0], [], fun _ => 0⟩ 5).1 ⟨2, by decide, by decide⟩
  exact ⟨fd, h1, h2⟩

/-! ## The code at particular inputs -/

set_option maxRecDepth 100000

theorem boot_initial : kernel.initial 2 boot := by
  unfold kernel.initial oshm_empty
  decide

/-- Claim C1, the code at the failing input: in the initial state `boot`, where
`SHMMAXPAGES` is `2`, process 0 opens `"X"` and calls `sys_shm_trunc(0, 3 * PGSIZE)`.  Before
the second call slot 0 has one attachment and `process_counter == 1`; the call stores the
address of the third page in `addresses[2]`, which is the memory of `process_counter`, so
afterwards slot 0 still has one attachment and `process_counter` is `0x402000`. -/
theorem refcount_after_overrun :
    Reachable 2 overrun ∧
      boot.shared_memory.SHMMAXPAGES = 2 ∧
      attachments (boot.shm_open 0 name_X).procs 0 = 1 ∧
      ((boot.shm_open 0 name_X).shared_memory.slot 0).process_counter = 1 ∧
      attachments overrun.procs 0 = 1 ∧
      (overrun.shared_memory.slot 0).process_counter = 0x402000 ∧
      (overrun.shared_memory.slot 0).process_counter
        = toI32 (V2P 0x80402000) :=
  ⟨Reachable.shm_trunc _ 0 12288
      (Reachable.shm_open boot 0 name_X (Reachable.init boot boot_initial) (by decide))
      (by decide) (by decide),
    by decide, by decide, by decide, by decide, by decide, by decide⟩

/-- Claim C2, the code at the failing input: in the initial state `boot` a process that has
opened nothing calls `sys_shm_trunc(0, 4096)`.  Afterwards slot 0 still has
`process_counter == 0`, but its `size` is `4096` and `addresses[0]` is a page that was taken
from the allocator and has not been given back. -/
theorem shm_trunc_on_unopened_slot :
    Reachable 2 (boot.shm_trunc 0 4096) ∧
      ((boot.shm_trunc 0 4096).shared_memory.slot 0).process_counter = 0 ∧
      ((boot.shm_trunc 0 4096).shared_memory.slot 0).size = 4096 ∧
      P2V (toU32 (((boot.shm_trunc 0 4096).shared_memory.slot 0).addresses 0))
        = 0x80400000 ∧
      0x80400000 ∈ boot.kmem.freelist ∧
      0x80400000 ∉ (boot.shm_trunc 0 4096).kmem.freelist :=
  ⟨Reachable.shm_trunc boot 0 4096 (Reachable.init boot boot_initial) (by decide) (by decide),
    by decide, by decide, by decide, by decide, by decide⟩

/-- Claim C3, the code at the failing input: process 0 has opened `"X"` (slot 0, two pages) and
`"Y"` (slot 1), and has mapped neither.  `sys_shm_map(0, &va, O_RDWR)` returns `0` and chooses
`va = 0xFFFFE000`, which lies above `KERNBASE - PGSIZE`; without the entry for `"Y"` the same
call chooses `0x7FFFD000`. -/
theorem shm_map_with_unmapped_neighbour :
    (two_opened.procs.getD 0 default).oshm = [⟨0, 0, 0⟩, ⟨1, 0, 0⟩] ∧
      (two_opened.shared_memory.slot 0).size = 8192 ∧
      (sys_shm_map two_opened.shared_memory (two_opened.procs.getD 0 default) 0 O_RDWR).1 = 0 ∧
      (sys_shm_map two_opened.shared_memory (two_opened.procs.getD 0 default) 0 O_RDWR).2.2
        = some 0xFFFFE000 ∧
      KERNBASE - PGSIZE < 0xFFFFE000 ∧
      ¬ (0xFFFFE000 + 8192 ≤ KERNBASE - PGSIZE) ∧
      (one_opened.procs.getD 0 default).oshm = [⟨0, 0, 0⟩, ⟨-1, 0, 0⟩] ∧
      (sys_shm_map one_opened.shared_memory (one_opened.procs.getD 0 default) 0 O_RDWR).2.2
        = some 0x7FFFD000 := by
  refine ⟨by decide, by decide, by decide, by decide, by decide, by decide, by decide,
    by decide⟩

/-- Claim C4, the code at the failing input: process 0 has `"X"` (two pages, `0x400000` and
`0x401000`) mapped at `0x7FFFD000`, and `shmcpy` copies it to process 1.  The second page is
mapped in the parent at `0x7FFFD000 + PGSIZE`; the child has no entry there, and has the page
at `0x7FFFD000 + 4 * PGSIZE` instead.  When the parent has opened `"X"` (one page) and not
mapped it, `shmcpy` replaces the child's entry for virtual address `0`. -/
theorem shmcpy_at_two_pages :
    (one_mapped.procs.getD 0 default).oshm = [⟨0, 0x7FFFD000, 2⟩, ⟨-1, 0, 0⟩] ∧
      (one_mapped.shared_memory.slot 0).addresses 1 = 0x401000 ∧
      (one_mapped.procs.getD 0 default).pgdir (0x7FFFD000 + 1 * PGSIZE) = 0x401007 ∧
      ((one_mapped.shm_fork 0 1).procs.getD 1 default).oshm = [⟨0, 0x7FFFD000, 2⟩, ⟨-1, 0, 0⟩] ∧
      ((one_mapped.shm_fork 0 1).procs.getD 1 default).pgdir (0x7FFFD000 + 1 * PGSIZE) = 0 ∧
      ((one_mapped.shm_fork 0 1).procs.getD 1 default).pgdir (0x7FFFD000 + 4 * (1 * PGSIZE))
        = 0x401007 ∧
      (one_page.procs.getD 0 default).oshm = [⟨0, 0, 0⟩, ⟨-1, 0, 0⟩] ∧
      (one_page.procs.getD 1 default).pgdir 0 = 0x166007 ∧
      ((one_page.shm_fork 0 1).procs.getD 1 default).pgdir 0 = 0x400005 := by
  refine ⟨by decide, by decide, by decide, by decide, by decide, by decide, by decide,
    by decide, by decide⟩

/-- Claim C5, the code at the failing input: for `flags = O_WRONLY` the test `flags & O_RDWR`
is zero, and the permission word handed to `mappages` is `PTE_U | PTE_W`, both in
`sys_shm_map` and for the child in `shmcpy`. -/
theorem shm_perm_at_wronly :
    O_WRONLY &&& O_RDWR = 0 ∧
      shm_perm O_WRONLY = PTE_U ||| PTE_W ∧
      ((one_page.shm_map 0 0 O_WRONLY).procs.getD 0 default).pgdir 0x7FFFE000
        = 0x400000 ||| (PTE_U ||| PTE_W) ||| PTE_P ∧
      (((one_page.shm_map 0 0 O_WRONLY).shm_fork 0 1).procs.getD 1 default).pgdir 0x7FFFE000
        = 0x400000 ||| (PTE_U ||| PTE_W) ||| PTE_P := by
  refine ⟨by decide, by decide, by decide, by decide⟩

/-- Claim C6, the code at the failing input: processes 0 and 1 have opened `"X"`, it has one
page, and process 0 has not mapped it (`va == 0`).  `close_shm_o(0)` by process 0 returns `0`,
frees the entry and lowers `process_counter` from `2` to `1`, and it sets the page-table entry
of virtual address `0`, which was `0x155007`, to `0`. -/
theorem close_shm_o_at_unmapped :
    (shared_unmapped.procs.getD 0 default).oshm = [⟨0, 0, 0⟩, ⟨-1, 0, 0⟩] ∧
      (shared_unmapped.shared_memory.slot 0).size = 4096 ∧
      (shared_unmapped.shared_memory.slot 0).process_counter = 2 ∧
      (shared_unmapped.procs.getD 0 default).pgdir 0 = 0x155007 ∧
      (close_shm_o shared_unmapped.shared_memory (shared_unmapped.procs.getD 0 default)
        shared_unmapped.kmem 0).1 = 0 ∧
      (close_shm_o shared_unmapped.shared_memory (shared_unmapped.procs.getD 0 default)
        shared_unmapped.kmem 0).2.2.1.oshm = [⟨-1, 0, -1⟩, ⟨-1, 0, 0⟩] ∧
      ((close_shm_o shared_unmapped.shared_memory (shared_unmapped.procs.getD 0 default)
        shared_unmapped.kmem 0).2.1.slot 0).process_counter = 1 ∧
      (close_shm_o shared_unmapped.shared_memory (shared_unmapped.procs.getD 0 default)
        shared_unmapped.kmem 0).2.2.1.pgdir 0 = 0 := by
  refine ⟨by decide, by decide, by decide, by decide, by decide, by decide, by decide,
    by decide⟩

/-- Claim C7, the code at the failing input: process 0 of the initial state `boot` has two free
attachment entries and opens a name of 101 bytes twice.  The first call returns handle `0`;
its `strncpy` runs past `name[100]` into `size`, and `size = 0` then leaves a name of 100
bytes in slot 0, so the second call finds no slot of that name and returns handle `1`.  For
the name `"X"` both calls return `0`. -/
theorem shm_open_twice_long_name :
    (boot.procs.getD 0 default).oshm = [⟨-1, 0, 0⟩, ⟨-1, 0, 0⟩] ∧
      name_101.length = 101 ∧
      (sys_shm_open boot.shared_memory (boot.procs.getD 0 default) name_101).1 = 0 ∧
      ((sys_shm_open boot.shared_memory (boot.procs.getD 0 default) name_101).2.1.slot 0).name
        = List.replicate 100 65 ∧
      (sys_shm_open
          (sys_shm_open boot.shared_memory (boot.procs.getD 0 default) name_101).2.1
          (sys_shm_open boot.shared_memory (boot.procs.getD 0 default) name_101).2.2
          name_101).1 = 1 ∧
      (sys_shm_open boot.shared_memory (boot.procs.getD 0 default) name_X).1 = 0 ∧
      (sys_shm_open
          (sys_shm_open boot.shared_memory (boot.procs.getD 0 default) name_X).2.1
          (sys_shm_open boot.shared_memory (boot.procs.getD 0 default) name_X).2.2
          name_X).1 = 0 := by
  refine ⟨by decide, by decide, by decide, by decide, by decide, by decide, by decide⟩

/-! ## Stores and loads of an `int` -/

theorem length_write32 (m : List Nat) (off : Nat) (v : Int) :
    (write32 m off v).length = m.length := by
  simp [write32]

theorem toI32_toU32 (v : Int) : toI32 ((toU32 v : Nat) : Int) = toI32 v := by
  unfold toI32 toU32
  have h : (0 : Int) ≤ v % 2 ^ 32 := Int.emod_nonneg _ (by norm_num)
  rw [Int.toNat_of_nonneg h]
  omega

theorem toI32_of_range (v : Int) (h0 : -(2 ^ 31) ≤ v) (h1 : v < 2 ^ 31) : toI32 v = v := by
  unfold toI32
  omega

theorem toI32_toI32 (v : Int) : toI32 (toI32 v) = toI32 v := by
  unfold toI32
  omega

theorem toU32_lt (v : Int) : toU32 v < 2 ^ 32 := by
  unfold toU32
  have h : (0 : Int) ≤ v % 2 ^ 32 := Int.emod_nonneg _ (by norm_num)
  have h2 : v % 2 ^ 32 < 2 ^ 32 := Int.emod_lt_of_pos _ (by norm_num)
  omega

theorem read32_write32_same (m : List Nat) (off : Nat) (v : Int) (h : off + 4 ≤ m.length) :
    read32 (write32 m off v) off = toI32 v := by
  have hu := toU32_lt v
  have h0 : off < m.length := by omega
  have h1 : off + 1 < m.length := by omega
  have h2 : off + 2 < m.length := by omega
  have h3 : off + 3 < m.length := by omega
  rw [← toI32_toU32 v]
  unfold read32 write32
  congr 2
  simp [List.getD_eq_getElem?_getD, List.getElem?_set, h0, h1, h2, h3]
  omega

theorem read32_write32_other (m : List Nat) (off other : Nat) (v : Int)
    (h : other + 4 ≤ off ∨ off + 4 ≤ other) :
    read32 (write32 m off v) other = read32 m other := by
  unfold read32 write32
  have e : ∀ a b : Nat, a < 4 → b < 4 → off + a ≠ other + b := by
    intro a b ha hb
    omega
  have e0 := e 0 0 (by omega) (by omega)
  have e1 := e 0 1 (by omega) (by omega)
  have e2 := e 0 2 (by omega) (by omega)
  have e3 := e 0 3 (by omega) (by omega)
  have f0 := e 1 0 (by omega) (by omega)
  have f1 := e 1 1 (by omega) (by omega)
  have f2 := e 1 2 (by omega) (by omega)
  have f3 := e 1 3 (by omega) (by omega)
  have g0 := e 2 0 (by omega) (by omega)
  have g1 := e 2 1 (by omega) (by omega)
  have g2 := e 2 2 (by omega) (by omega)
  have g3 := e 2 3 (by omega) (by omega)
  have k0 := e 3 0 (by omega) (by omega)
  have k1 := e 3 1 (by omega) (by omega)
  have k2 := e 3 2 (by omega) (by omega)
  have k3 := e 3 3 (by omega) (by omega)
  simp only [Nat.add_zero] at e0 e1 e2 e3 f0 g0 k0
  simp [List.getD_eq_getElem?_getD, List.getElem?_set, e0, e1, e2, e3, f0, f1, f2, f3,
    g0, g1, g2, g3, k0, k1, k2, k3]

/-! ## The result of `sys_shm_trunc` -/

theorem base_add_stride_le (t : shm_table) (i : Int) (hlo : 0 ≤ i) (hhi : i < t.length) :
    t.base i + t.stride ≤ t.bytes.length := by
  have h1 : i.toNat + 1 ≤ t.bytes.length / t.stride := by
    unfold shm_table.length at hhi
    omega
  have h2 : (i.toNat + 1) * t.stride ≤ t.bytes.length :=
    (Nat.le_div_iff_mul_le (by unfold shm_table.stride; omega)).mp h1
  unfold shm_table.base
  rw [Nat.succ_mul] at h2
  exact h2

theorem trunc_loop_shape (shm_od : Int) (l : List Nat) (km : kmem_t) (t : shm_table) :
    (l.foldl (sys_shm_trunc_page shm_od) (km, t)).2.SHMMAXPAGES = t.SHMMAXPAGES ∧
      (l.foldl (sys_shm_trunc_page shm_od) (km, t)).2.bytes.length = t.bytes.length := by
  induction l generalizing km t with
  | nil => exact ⟨rfl, rfl⟩
  | cons x xs ih =>
    simp only [List.foldl_cons]
    obtain ⟨h1, h2⟩ := ih (kalloc km).2 (t.set_address shm_od x (toI32 (V2P (kalloc km).1)))
    have hstep : sys_shm_trunc_page shm_od (km, t) x
        = ((kalloc km).2, t.set_address shm_od x (toI32 (V2P (kalloc km).1))) := rfl
    rw [hstep, h1, h2]
    unfold shm_table.set_address
    split
    · exact ⟨rfl, length_write32 _ _ _⟩
    · exact ⟨rfl, rfl⟩

theorem slot_size_set_size (t : shm_table) (i : Int) (v : Int) (hlo : 0 ≤ i)
    (hlen : t.base i + t.stride ≤ t.bytes.length) :
    ((t.set_size i v).slot i).size = toI32 v := by
  have hs : t.base i + 100 + 4 ≤ t.bytes.length := by
    unfold shm_table.stride at hlen
    omega
  simp only [shm_table.slot, shm_table.set_size, hlo, if_true, shm_table.base,
    shm_table.stride]
  exact read32_write32_same _ _ _ hs

theorem slot_addresses_set_size (t : shm_table) (i : Int) (v : Int) (j : Nat) :
    ((t.set_size i v).slot i).addresses j = (t.slot i).addresses j := by
  by_cases hlo : 0 ≤ i
  · simp only [shm_table.slot, shm_table.set_size, hlo, if_true, shm_table.base,
      shm_table.stride]
    exact read32_write32_other _ _ _ _ (Or.inr (by omega))
  · simp only [shm_table.slot, shm_table.set_size, hlo, if_false]

theorem slot_process_counter_set_size (t : shm_table) (i : Int) (v : Int) :
    ((t.set_size i v).slot i).process_counter = (t.slot i).process_counter := by
  by_cases hlo : 0 ≤ i
  · simp only [shm_table.slot, shm_table.set_size, hlo, if_true, shm_table.base,
      shm_table.stride]
    exact read32_write32_other _ _ _ _ (Or.inr (by omega))
  · simp only [shm_table.slot, shm_table.set_size, hlo, if_false]

theorem slot_addresses_set_address (t : shm_table) (i : Int) (j : Nat) (v : Int)
    (hlo : 0 ≤ i) (hlen : t.base i + 104 + 4 * j + 4 ≤ t.bytes.length) :
    ((t.set_address i j v).slot i).addresses j = toI32 v := by
  simp only [shm_table.slot, shm_table.set_address, hlo, if_true, shm_table.base,
    shm_table.stride]
  exact read32_write32_same _ _ _ hlen

theorem slot_process_counter_set_address (t : shm_table) (i : Int) (n : Nat) (v : Int)
    (hn : t.SHMMAXPAGES = n) (hlo : 0 ≤ i) (hlen : t.base i + t.stride ≤ t.bytes.length) :
    ((t.set_address i n v).slot i).process_counter = toI32 v := by
  subst hn
  have hs : t.base i + 104 + 4 * t.SHMMAXPAGES + 4 ≤ t.bytes.length := by
    unfold shm_table.stride at hlen
    omega
  simp only [shm_table.slot, shm_table.set_address, hlo, if_true, shm_table.base,
    shm_table.stride]
  exact read32_write32_same _ _ _ hs

/-- Claim C10, the code at the failing input: whatever the bound `SHMMAXPAGES` of the array
`addresses` is, `sys_shm_trunc(shm_od, (SHMMAXPAGES + 1) * PGSIZE)` on a slot of size `0`
is a call with an `int` argument that succeeds, its loop reaches `i == SHMMAXPAGES` and
stores a page address in `addresses[SHMMAXPAGES]`, and the size it stores is larger than
`SHMMAXPAGES * PGSIZE`.  The store lands on `process_counter`, the field that follows the
array. -/
theorem sys_shm_trunc_past_addresses (shared_memory : shm_table) (km : kmem_t)
    (shm_od : Int) (hlo : 0 ≤ shm_od) (hhi : shm_od < shared_memory.length)
    (hfit : ((shared_memory.SHMMAXPAGES : Int) + 1) * PGSIZE < 2 ^ 31)
    (hs : (shared_memory.slot shm_od).size = 0) :
    toI32 ((shared_memory.SHMMAXPAGES + 1) * PGSIZE)
        = (shared_memory.SHMMAXPAGES + 1) * PGSIZE ∧
      (sys_shm_trunc shared_memory km shm_od ((shared_memory.SHMMAXPAGES + 1) * PGSIZE)).1
        = (shared_memory.SHMMAXPAGES + 1) * PGSIZE ∧
      shared_memory.SHMMAXPAGES
        ∈ page_indices (sys_shm_trunc_size ((shared_memory.SHMMAXPAGES + 1) * PGSIZE)) ∧
      ((sys_shm_trunc shared_memory km shm_od
          ((shared_memory.SHMMAXPAGES + 1) * PGSIZE)).2.1.slot shm_od).addresses
          shared_memory.SHMMAXPAGES
        = toI32 (V2P (kalloc ((List.range shared_memory.SHMMAXPAGES).foldl
            (sys_shm_trunc_page shm_od) (km, shared_memory)).1).1) ∧
      (shared_memory.SHMMAXPAGES : Int) * PGSIZE
        < ((sys_shm_trunc shared_memory km shm_od
            ((shared_memory.SHMMAXPAGES + 1) * PGSIZE)).2.1.slot shm_od).size ∧
      ((sys_shm_trunc shared_memory km shm_od
          ((shared_memory.SHMMAXPAGES + 1) * PGSIZE)).2.1.slot shm_od).process_counter
        = toI32 (V2P (kalloc ((List.range shared_memory.SHMMAXPAGES).foldl
            (sys_shm_trunc_page shm_od) (km, shared_memory)).1).1) := by
  have hsz : sys_shm_trunc_size (((shared_memory.SHMMAXPAGES : Int) + 1) * PGSIZE)
      = ((shared_memory.SHMMAXPAGES : Int) + 1) * PGSIZE := by
    unfold sys_shm_trunc_size
    rw [Int.tmod_eq_emod (by positivity) (by decide)]
    simp
  have hpi : page_indices (((shared_memory.SHMMAXPAGES : Int) + 1) * PGSIZE)
      = List.range shared_memory.SHMMAXPAGES ++ [shared_memory.SHMMAXPAGES] := by
    unfold page_indices
    rw [Int.tdiv_eq_ediv (by positivity) (by decide),
      Int.mul_ediv_cancel _ (by decide : ((PGSIZE : Nat) : Int) ≠ 0)]
    have : ((shared_memory.SHMMAXPAGES : Int) + 1).toNat = shared_memory.SHMMAXPAGES + 1 := by
      omega
    rw [this, List.range_succ]
  have hrange : toI32 (((shared_memory.SHMMAXPAGES : Int) + 1) * PGSIZE)
      = ((shared_memory.SHMMAXPAGES : Int) + 1) * PGSIZE := by
    apply toI32_of_range _ _ hfit
    have : (0 : Int) ≤ ((shared_memory.SHMMAXPAGES : Int) + 1) * PGSIZE := by positivity
    omega
  obtain ⟨g1, g2⟩ := trunc_loop_shape shm_od (List.range shared_memory.SHMMAXPAGES) km
    shared_memory
  have hlen := base_add_stride_le shared_memory shm_od hlo hhi
  have hlen2 : ((List.range shared_memory.SHMMAXPAGES).foldl (sys_shm_trunc_page shm_od)
        (km, shared_memory)).2.base shm_od
      + ((List.range shared_memory.SHMMAXPAGES).foldl (sys_shm_trunc_page shm_od)
        (km, shared_memory)).2.stride
      ≤ ((List.range shared_memory.SHMMAXPAGES).foldl (sys_shm_trunc_page shm_od)
        (km, shared_memory)).2.bytes.length := by
    unfold shm_table.base shm_table.stride at *
    rw [g1, g2]
    exact hlen
  have hlen3 : ((List.range shared_memory.SHMMAXPAGES).foldl (sys_shm_trunc_page shm_od)
        (km, shared_memory)).2.base shm_od + 104 + 4 * shared_memory.SHMMAXPAGES + 4
      ≤ ((List.range shared_memory.SHMMAXPAGES).foldl (sys_shm_trunc_page shm_od)
        (km, shared_memory)).2.bytes.length := by
    unfold shm_table.stride at hlen2
    rw [g1] at hlen2
    omega
  have hrun : (sys_shm_trunc shared_memory km shm_od
        ((shared_memory.SHMMAXPAGES + 1) * PGSIZE)).2.1
      = (((List.range shared_memory.SHMMAXPAGES).foldl (sys_shm_trunc_page shm_od)
            (km, shared_memory)).2.set_address shm_od shared_memory.SHMMAXPAGES
          (toI32 (V2P (kalloc ((List.range shared_memory.SHMMAXPAGES).foldl
            (sys_shm_trunc_page shm_od) (km, shared_memory)).1).1))).set_size shm_od
          ((shared_memory.SHMMAXPAGES + 1) * PGSIZE) := by
    simp only [sys_shm_trunc, hs, ne_eq, not_true_eq_false, if_false, hsz, hpi,
      List.foldl_append, List.foldl_cons, List.foldl_nil]
    rfl
  refine ⟨hrange, ?_, ?_, ?_, ?_, ?_⟩
  · simp [sys_shm_trunc, hs, hsz]
  · rw [hsz, hpi]
    simp
  · rw [hrun, slot_addresses_set_size, slot_addresses_set_address _ _ _ _ hlo hlen3,
      toI32_toI32]
  · rw [hrun, slot_size_set_size _ _ _ hlo (by
      unfold shm_table.set_address
      simp only [hlo, if_true]
      unfold shm_table.base shm_table.stride at *
      simp only [length_write32]
      exact hlen2), hrange]
    simp only [PGSIZE]
    push_cast
    omega
  · rw [hrun, slot_process_counter_set_size,
      slot_process_counter_set_address _ _ _ _ g1 hlo hlen2, toI32_toI32]

/-- Claim C10 at a concrete bound: with `SHMMAXPAGES = 2` the call `sys_shm_trunc(0, 3 * PGSIZE)`
on the fresh table stores the third free page in `addresses[2]`. -/
theorem sys_shm_trunc_past_addresses_witness :
    ((sys_shm_trunc boot.shared_memory boot.kmem 0
          ((boot.shared_memory.SHMMAXPAGES + 1) * PGSIZE)).2.1.slot 0).addresses
          boot.shared_memory.SHMMAXPAGES
        = toI32 (V2P (kalloc ((List.range boot.shared_memory.SHMMAXPAGES).foldl
            (sys_shm_trunc_page 0) (boot.kmem, boot.shared_memory)).1).1) :=
  (sys_shm_trunc_past_addresses boot.shared_memory boot.kmem 0 (by decide) (by decide)
    (by decide) (by decide)).2.2.2.1

end Sysfile
